import Mathlib

/-!
# Verification of the yahoo-fair-trades valuation and trade-impact engine

Shallow embedding of the computational core of the repository
(`src/fairness.js` and the engine-relevant parts of `src/index.js`):

* `buildCategoryListFromSettings` — category extraction from league settings;
* `computePerGame` — per-game normalisation of raw stats;
* `valuePlayers` — z-score composite valuation over a pool;
* `pickStarters` — greedy roster slot assignment;
* `tradeImpactForTeam` — post-trade lineup simulation and impact;
* `verdict` — the two-state approve/review classifier.

JavaScript numbers are modelled by `ℚ` where the code only adds, subtracts,
multiplies, divides and compares, and by `ℝ` where `Math.sqrt` is involved
(the valuation pipeline).  A possibly-missing / non-numeric JS value is an
`Option`, with the `Number(x) || 0` coercion modelled by `Option.getD 0`.
JS objects used as string-keyed maps are association lists (`Object.entries`
iterates in insertion order, which the lists record); `Array.prototype.sort`
is a stable sort, modelled by `List.insertionSort`.
-/

/-! ## JS-style numeric coercion -/

/-- `Number(v) || 0` on a possibly missing / non-numeric value (`none` stands
for `undefined`, `null`, `NaN` or any non-numeric input): yields the numeric
value, or `0`. -/
def jsNumQ (v : Option ℚ) : ℚ := v.getD 0

/-! ## CategoryExtractor (`buildCategoryListFromSettings`, fairness.js 3–15) -/

/-- One stat-category descriptor as read from league settings.
`stat_id` is the result of `Number(stat.stat_id)`: `none` when missing or
non-numeric (`Number.isFinite` fails).  `name` is the raw `stat.name`
(`none` when missing; `(stat.name || "").toLowerCase()` then lowercases the
empty string).  `position_type` is `stat.position_type || null`. -/
structure StatDesc where
  stat_id : Option ℚ
  name : Option (List Char)
  position_type : Option (List Char)
deriving DecidableEq, Repr

/-- A raw element of the settings' stats list: the code unwraps one optional
level via `const stat = s.stat || s`. -/
inductive RawStat where
  | wrapped : StatDesc → RawStat
  | bare : StatDesc → RawStat
deriving DecidableEq, Repr

/-- `s.stat || s`. -/
def RawStat.unwrap : RawStat → StatDesc
  | .wrapped s => s
  | .bare s => s

/-- The `stat_categories` block of league settings; either of the `stats` /
`stat` keys may be present. -/
structure StatCategoriesBlk where
  stats : Option (List RawStat)
  stat : Option (List RawStat)
deriving DecidableEq, Repr

/-- League settings as far as category extraction reads them: the settings
object may be absent, and its `stat_categories` key may be absent. -/
def SettingsCats : Type := Option (Option StatCategoriesBlk)

/-- `settings?.stat_categories?.stats || settings?.stat_categories?.stat || []`.
(A present-but-empty JS array is truthy, so a present `stats` key always
wins, exactly as `Option.orElse` does here.) -/
def statsOf : SettingsCats → List RawStat
  | none => []
  | some none => []
  | some (some blk) => ((blk.stats).orElse (fun _ => blk.stat)).getD []

/-- An extracted category: `{ id, name, position_type }`. -/
structure Category where
  id : ℚ
  name : Option (List Char)
  position_type : Option (List Char)
deriving DecidableEq, Repr

/-- `(stat.name || "").toLowerCase()`. -/
def lowerNameOf (n : Option (List Char)) : List Char :=
  (n.getD []).map Char.toLower

/-- The excluded substring `"games played"`. -/
def gamesPlayedChars : List Char := "games played".toList

/-- `buildCategoryListFromSettings` (fairness.js 3–15): walk the stats list;
skip a descriptor whose `Number(stat.stat_id)` is not finite, or whose
lowercased name contains `"games played"`; otherwise push
`{ id, name, position_type }`. -/
def buildCategoryListFromSettings (settings : SettingsCats) : List Category :=
  go (statsOf settings)
where
  /-- The `for (const s of stats)` loop with its two `continue`s. -/
  go : List RawStat → List Category
    | [] => []
    | s :: rest =>
      let stat := s.unwrap
      match stat.stat_id with
      | none => go rest
      | some id =>
        if gamesPlayedChars <:+: lowerNameOf stat.name then go rest
        else ⟨id, stat.name, stat.position_type⟩ :: go rest

/-! ## PerGameNormalizer (`computePerGame`, fairness.js 17–28) -/

/-- A player as `computePerGame` reads it: `gp` is the value of the
truthiness chain `p.gp || p.games_played || 0` (`none` when every link is
missing or non-numeric, so that `Number(·) || 0` yields `0`); `stats` is
`Object.entries(p.stats || {})` with each value possibly non-numeric. -/
structure GPlayer where
  gp : Option ℚ
  stats : List (ℚ × Option ℚ)
deriving DecidableEq, Repr

/-- Per-game normalisation of one player (the body of the `map` in
fairness.js 18–27): `gp = Number(…) || 0`; if `!gp` the `per` map stays
empty, otherwise `per[k] = (Number(v) || 0) / gp` for every entry of
`p.stats`. -/
def perGameOne (p : GPlayer) : List (ℚ × ℚ) :=
  let gp := jsNumQ p.gp
  if gp = 0 then []
  else p.stats.map (fun kv => (kv.1, jsNumQ kv.2 / gp))

/-- `computePerGame` (fairness.js 17–28): augment every player of the pool
with its `per` map. -/
def computePerGame (players : List GPlayer) : List (GPlayer × List (ℚ × ℚ)) :=
  players.map (fun p => (p, perGameOne p))

/-! ## ValueScorer (`valuePlayers`, fairness.js 30–58)

`Math.sqrt` forces this part of the model into `ℝ`. -/

/-- A player as `valuePlayers` reads and writes it: its `per` map (stat id →
per-game rate) and its composite `value`. -/
structure VPlayer where
  per : List (ℚ × ℝ)
  value : ℝ

/-- `Number(p.per?.[id]) || 0`: the per-game rate for a stat id, defaulting
to `0` when absent. -/
def perVal (p : VPlayer) (id : ℚ) : ℝ := (p.per.lookup id).getD 0

/-- The `sums[c.id]` accumulator of the first loop of `valuePlayers`. -/
def sumsFor (pool : List VPlayer) (id : ℚ) : ℝ :=
  (pool.map (fun p => perVal p id)).sum

/-- The `sums2[c.id]` accumulator (`v * v` summed over the pool). -/
def sums2For (pool : List VPlayer) (id : ℚ) : ℝ :=
  (pool.map (fun p => perVal p id * perVal p id)).sum

/-- `counts[c.id] || 1` (the count is the pool size for every category, and
the `|| 1` guard only fires on an empty pool). -/
def nFor (pool : List VPlayer) : ℝ :=
  if pool.length = 0 then 1 else (pool.length : ℝ)

/-- `mean[c.id] = sums[c.id] / n`. -/
noncomputable def meanFor (pool : List VPlayer) (id : ℚ) : ℝ := sumsFor pool id / nFor pool

/-- `variance = Math.max(sums2[c.id] / n - m * m, 0)`. -/
noncomputable def varianceFor (pool : List VPlayer) (id : ℚ) : ℝ :=
  max (sums2For pool id / nFor pool - meanFor pool id * meanFor pool id) 0

/-- `stdev[c.id] = Math.sqrt(variance) || 1e-9` (the square root of a
non-negative variance is `NaN`-free, so the `||` guard fires exactly when
the root is `0`). -/
noncomputable def stdevFor (pool : List VPlayer) (id : ℚ) : ℝ :=
  if Real.sqrt (varianceFor pool id) = 0 then 1e-9
  else Real.sqrt (varianceFor pool id)

/-- The `val` accumulator of the final loop: the sum over the categories of
`(v - mean[c.id]) / stdev[c.id]` for one player. -/
noncomputable def zsumFor (pool : List VPlayer) (cats : List Category) (p : VPlayer) : ℝ :=
  (cats.map (fun c => (perVal p c.id - meanFor pool c.id) / stdevFor pool c.id)).sum

/-- `Number(val.toFixed(4))`: round to 4 decimal places (`toFixed` picks the
nearest multiple of `10⁻⁴`, ties towards `+∞`, which is `round`). -/
noncomputable def round4 (x : ℝ) : ℝ := (round (x * 10000) : ℤ) / 10000

/-- `valuePlayers` (fairness.js 30–58): write
`p.value = Number(val.toFixed(4))` for every player of the pool. -/
noncomputable def valuePlayers (pool : List VPlayer) (cats : List Category) : List VPlayer :=
  pool.map (fun p => { p with value := round4 (zsumFor pool cats p) })

/-! ## Roster players and slot requirements -/

/-- A player as the roster engine (index.js `normalize` output, after
valuation) sees it. -/
structure P where
  player_key : String
  pos : List String
  isGoalie : Bool
  value : ℚ
deriving DecidableEq, Repr

/-- The fixed slot-requirements object built by `computeStartersByPos`:
`{ C: 0, LW: 0, RW: 0, D: 0, Util: 0, G: 0 }` — always exactly these six
keys, in this insertion order. -/
structure SlotReq where
  C : Nat
  LW : Nat
  RW : Nat
  D : Nat
  Util : Nat
  G : Nat
deriving DecidableEq, Repr

/-- `Object.entries(need)`: the six key/count pairs in insertion order. -/
def entriesOf (r : SlotReq) : List (String × Nat) :=
  [("C", r.C), ("LW", r.LW), ("RW", r.RW), ("D", r.D), ("Util", r.Util), ("G", r.G)]

/-- Read one slot count by label (`0` for a label the object never holds). -/
def getSlot (r : SlotReq) (lab : String) : Nat :=
  if lab = "C" then r.C
  else if lab = "LW" then r.LW
  else if lab = "RW" then r.RW
  else if lab = "D" then r.D
  else if lab = "Util" then r.Util
  else if lab = "G" then r.G
  else 0

/-- `need[pos] = count - 1`: decrement the named slot. -/
def decSlot (r : SlotReq) (lab : String) : SlotReq :=
  if lab = "C" then { r with C := r.C - 1 }
  else if lab = "LW" then { r with LW := r.LW - 1 }
  else if lab = "RW" then { r with RW := r.RW - 1 }
  else if lab = "D" then { r with D := r.D - 1 }
  else if lab = "Util" then { r with Util := r.Util - 1 }
  else if lab = "G" then { r with G := r.G - 1 }
  else r

/-- Positional eligibility (fairness.js 86–87 / index.js 247):
`pos === "Util" ? !p.isGoalie : pos === "G" ? p.isGoalie :
(p.pos || []).includes(pos)`. -/
def eligibleFor (p : P) (pos : String) : Bool :=
  if pos = "Util" then !p.isGoalie
  else if pos = "G" then p.isGoalie
  else p.pos.contains pos

/-- The inner `for (const [pos, count] of Object.entries(need))` scan with
its `break`: the first entry with `eligible && count > 0`, if any. -/
def scanSlots (p : P) : List (String × Nat) → Option String
  | [] => none
  | (pos, count) :: rest =>
    if eligibleFor p pos ∧ 0 < count then some pos else scanSlots p rest

/-- One iteration of the outer player loop shared by `pickStarters`
(index.js 244–251) and `tradeImpactForTeam` (fairness.js 83–96): place the
player in its first eligible open slot and decrement it, or append the
player to the bench/leftover list.  The chosen list records, next to each
placed player, the label `pos` live at the JS push site (the code pushes
only the player); projecting the pair away recovers the code's list. -/
def stepPlayer (st : List (String × P) × List P × SlotReq) (p : P) :
    List (String × P) × List P × SlotReq :=
  match scanSlots p (entriesOf st.2.2) with
  | some pos => (st.1 ++ [(pos, p)], st.2.1, decSlot st.2.2 pos)
  | none => (st.1, st.2.1 ++ [p], st.2.2)

/-- The whole greedy pass over an (already sorted) candidate list. -/
def greedyAssign (need : SlotReq) (ps : List P) :
    List (String × P) × List P × SlotReq :=
  ps.foldl stepPlayer ([], [], need)

/-- `[...players].sort((a, b) => (b.value || 0) - (a.value || 0))`: a stable
sort descending by `value`, modelled by insertion sort (which is stable). -/
def sortByValueDesc (ps : List P) : List P :=
  ps.insertionSort (fun a b => b.value ≤ a.value)

/-- `pickStarters` (index.js 240–253): sort by value descending, run the
greedy pass, return `{ starters, bench }`. -/
def pickStarters (req : SlotReq) (players : List P) : List P × List P :=
  let sorted := sortByValueDesc players
  let res := greedyAssign req sorted
  (res.1.map Prod.snd, res.2.1)

/-! ## TradeImpactCalculator (`tradeImpactForTeam`, fairness.js 74–117) -/

/-- `Object.values(need).some((n) => n > 0)`. -/
def anyOpen (need : SlotReq) : Bool :=
  (entriesOf need).any (fun e => 0 < e.2)

/-- The free-agent backfill loop (fairness.js 99–111): place each free
agent (value-descending) into its first eligible open slot if any, and stop
as soon as no slot remains open. -/
def backfillFA : SlotReq → List (String × P) → List P → List (String × P) × SlotReq
  | need, chosen, [] => (chosen, need)
  | need, chosen, p :: rest =>
    let next :=
      match scanSlots p (entriesOf need) with
      | some pos => (chosen ++ [(pos, p)], decSlot need pos)
      | none => (chosen, need)
    if anyOpen next.2 then backfillFA next.2 next.1 rest else next

/-- The `chosen` list of `tradeImpactForTeam` after the main greedy pass and
the conditional free-agent backfill (fairness.js 75–112), labels carried as
in `stepPlayer`. -/
def tradeChosen (starters bench incoming freeAgents : List P)
    (startersByPos : SlotReq) : List (String × P) :=
  let withIncoming := (starters ++ bench) ++ incoming
  let sorted := sortByValueDesc withIncoming
  let main := greedyAssign startersByPos sorted
  if anyOpen main.2.2 then (backfillFA main.2.2 main.1 (sortByValueDesc freeAgents)).1
  else main.1

/-- `tradeImpactForTeam` (fairness.js 74–117): `strength - baseline`, where
`strength` reduces `Number(p.value) || 0` over the chosen lineup and
`baseline` reduces it over the `starters` argument. -/
def tradeImpactForTeam (starters bench incoming freeAgents : List P)
    (startersByPos : SlotReq) : ℚ :=
  let chosen := tradeChosen starters bench incoming freeAgents startersByPos
  let strength := (chosen.map Prod.snd).foldl (fun acc p => acc + p.value) 0
  let baseline := starters.foldl (fun acc p => acc + p.value) 0
  strength - baseline

/-! ## Evaluate-flow helpers (index.js 258–281) -/

/-- `Object.fromEntries(list.map((p) => [p.player_key, p]))` read at a key:
the last entry with that key wins, as in `Object.fromEntries`. -/
def jsFromEntries (l : List P) (k : String) : Option P :=
  l.foldl (fun acc p => if p.player_key = k then some p else acc) none

/-- `sendA.map((k) => Amap[k]).filter(Boolean)` (index.js 261–262):
resolve each requested key against the roster map and drop the unresolved
ones. -/
def outgoingFor (roster : List P) (send : List String) : List P :=
  (send.map (fun k => jsFromEntries roster k)).filterMap id

/-- `removeOutgoing` (index.js 264–265). -/
def removeOutgoing (arr outgoing : List P) : List P :=
  arr.filter (fun p => !(outgoing.any (fun o => o.player_key = p.player_key)))

/-! ## VerdictEngine (`verdict`, fairness.js 119–127) -/

/-- The `{ status, color }` result object. -/
structure Verdict where
  status : String
  color : String
deriving DecidableEq, Repr

/-- The three thresholds, with the declaration-site defaults
`lossTol = -0.35, gainMin = 0.25, imbalanceMax = 1.0`. -/
structure VerdictOpts where
  lossTol : ℚ := -(35/100)
  gainMin : ℚ := 25/100
  imbalanceMax : ℚ := 1
deriving DecidableEq, Repr

/-- The thresholds every default call uses. -/
def defaultVerdictOpts : VerdictOpts := {}

/-- `verdict` (fairness.js 119–127). -/
def verdict (tiA tiB : ℚ) (opts : VerdictOpts) : Verdict :=
  let imbalance := |tiA - tiB|
  if (opts.lossTol ≤ tiA ∧ opts.lossTol ≤ tiB) ∧
      (opts.gainMin ≤ tiA ∨ opts.gainMin ≤ tiB) ∧ imbalance ≤ opts.imbalanceMax then
    ⟨"APPROVE", "green"⟩
  else ⟨"REVIEW", "yellow"⟩

/-! ## Specification-side definitions and concrete witness inputs -/

/-- A roster for the C10 witness. -/
def wRoster : List P := [⟨"a1", ["C"], false, 10⟩]

/-- Concrete settings for the C8 witness: one ordinary goals category and
one `"Games PLAYED"` category. -/
def wSettings : SettingsCats :=
  some (some ⟨some [.bare ⟨some 1, some "Goals".toList, none⟩,
                    .wrapped ⟨some 0, some "Games PLAYED".toList, none⟩], none⟩)

/-- Players for the C5 witness: one with 2 games played (a numeric and a
non-numeric stat), one with games played missing. -/
def wG1 : GPlayer := ⟨some 2, [(1, some 10), (2, none)]⟩

/-- The games-played-missing player of the C5 witness. -/
def wG2 : GPlayer := ⟨none, [(1, some 3)]⟩

/-- Population mean of the per-game rates of a pool, as the claim words it
(missing values default to `0`). -/
noncomputable def specPopMean (pool : List VPlayer) (id : ℚ) : ℝ :=
  (pool.map (fun p => perVal p id)).sum / pool.length

/-- Population variance (mean of squared deviations) of the per-game rates
of a pool, as the claim words it. -/
noncomputable def specPopVariance (pool : List VPlayer) (id : ℚ) : ℝ :=
  (pool.map (fun p =>
    (perVal p id - specPopMean pool id) * (perVal p id - specPopMean pool id))).sum
    / pool.length

/-- Population standard deviation with the claim's `1e-9` floor at zero
variance. -/
noncomputable def specStdevFloored (pool : List VPlayer) (id : ℚ) : ℝ :=
  if specPopVariance pool id = 0 then 1e-9 else Real.sqrt (specPopVariance pool id)

/-- A two-player, one-category pool for the ValueScorer witnesses: per-game
rates 0 and 2, so mean 1, variance 1, z-scores −1 and 1. -/
noncomputable def wVPool : List VPlayer := [⟨[(1, 0)], 0⟩, ⟨[(1, 2)], 0⟩]

/-- The single category used by the ValueScorer witnesses. -/
def wCat : Category := ⟨1, none, none⟩

/-- An entry of the slot-requirements list is open and eligible for a
player: the scan condition `eligible && count > 0`. -/
def openElig (p : P) (e : String × Nat) : Prop := eligibleFor p e.1 ∧ 0 < e.2

/-- The slot requirements used by the C4 witness: one centre slot. -/
def wReq : SlotReq := ⟨1, 0, 0, 0, 0, 0⟩

/-- The skater used by the C4 witness. -/
def wP : P := ⟨"w", ["C"], false, 3⟩

/-- The one-centre-slot requirements of the C1 counterexample. -/
def cexReq : SlotReq := ⟨1, 0, 0, 0, 0, 0⟩

/-- Team A's starter in the C1 counterexample (value 10). -/
def cexA1 : P := ⟨"a1", ["C"], false, 10⟩

/-- Team A's benched centre in the C1 counterexample (value 5). -/
def cexA2 : P := ⟨"a2", ["C"], false, 5⟩

/-- The incoming player of the C1 counterexample (value 7). -/
def cexB1 : P := ⟨"b1", ["C"], false, 7⟩

/-- Team A's roster in the C1 counterexample. -/
def cexRoster : List P := [cexA1, cexA2]

/-! ## Theorems -/

/-- **C2.** For all impacts and thresholds, `verdict` returns `APPROVE` iff
both impacts are ≥ `lossTol`, at least one is ≥ `gainMin`, and the absolute
impact difference is ≤ `imbalanceMax`; otherwise it returns `REVIEW`, and no
other status exists.  The defaults are `lossTol = -0.35`, `gainMin = 0.25`,
`imbalanceMax = 1.0`, and the four concrete cases of §8 classify as
stated. -/
theorem verdict_two_state_characterisation :
    (∀ tiA tiB : ℚ, ∀ opts : VerdictOpts,
      ((verdict tiA tiB opts).status = "APPROVE" ↔
        (opts.lossTol ≤ tiA ∧ opts.lossTol ≤ tiB) ∧
        (opts.gainMin ≤ tiA ∨ opts.gainMin ≤ tiB) ∧
        |tiA - tiB| ≤ opts.imbalanceMax) ∧
      (verdict tiA tiB opts = ⟨"APPROVE", "green"⟩ ∨
        verdict tiA tiB opts = ⟨"REVIEW", "yellow"⟩)) ∧
    defaultVerdictOpts.lossTol = -(35/100) ∧
    defaultVerdictOpts.gainMin = 25/100 ∧
    defaultVerdictOpts.imbalanceMax = 1 ∧
    (verdict (30/100) (10/100) defaultVerdictOpts).status = "APPROVE" ∧
    (verdict (30/100) (-(50/100)) defaultVerdictOpts).status = "REVIEW" ∧
    (verdict (10/100) (5/100) defaultVerdictOpts).status = "REVIEW" ∧
    (verdict (150/100) (30/100) defaultVerdictOpts).status = "REVIEW" := by
  have hmain : ∀ tiA tiB : ℚ, ∀ opts : VerdictOpts,
      ((verdict tiA tiB opts).status = "APPROVE" ↔
        (opts.lossTol ≤ tiA ∧ opts.lossTol ≤ tiB) ∧
        (opts.gainMin ≤ tiA ∨ opts.gainMin ≤ tiB) ∧
        |tiA - tiB| ≤ opts.imbalanceMax) ∧
      (verdict tiA tiB opts = ⟨"APPROVE", "green"⟩ ∨
        verdict tiA tiB opts = ⟨"REVIEW", "yellow"⟩) := by
    intro tiA tiB opts
    unfold verdict
    dsimp only
    constructor
    · split_ifs with h
      · exact iff_of_true rfl h
      · exact iff_of_false (by decide) h
    · split_ifs
      · exact Or.inl rfl
      · exact Or.inr rfl
  have hrev : ∀ tiA tiB : ℚ, ∀ opts : VerdictOpts,
      ¬ ((opts.lossTol ≤ tiA ∧ opts.lossTol ≤ tiB) ∧
        (opts.gainMin ≤ tiA ∨ opts.gainMin ≤ tiB) ∧
        |tiA - tiB| ≤ opts.imbalanceMax) →
      (verdict tiA tiB opts).status = "REVIEW" := by
    intro tiA tiB opts h
    rcases (hmain tiA tiB opts).2 with he | he
    · exact absurd ((hmain tiA tiB opts).1.mp (by rw [he])) h
    · rw [he]
  refine ⟨hmain, rfl, rfl, rfl, ?_, ?_, ?_, ?_⟩
  · exact (hmain _ _ _).1.mpr (by norm_num [defaultVerdictOpts, abs_le])
  · exact hrev _ _ _ (by norm_num [defaultVerdictOpts])
  · exact hrev _ _ _ (by norm_num [defaultVerdictOpts])
  · exact hrev _ _ _ (by norm_num [defaultVerdictOpts, abs_le])

/-- A helper characterising `outgoingFor` as a `filterMap`. -/
theorem outgoingFor_eq_filterMap (roster : List P) (send : List String) :
    outgoingFor roster send = send.filterMap (jsFromEntries roster) := by
  unfold outgoingFor
  rw [List.filterMap_map]
  rfl

/-- **C10.** A player key in a trade request that does not resolve against
the team's roster map is silently dropped: deleting it anywhere in the
request leaves the outgoing set unchanged, and every member of the outgoing
set is a player some requested key resolves to (the computation is total, so
no error is raised). -/
theorem outgoingFor_drops_unresolved :
    (∀ (roster : List P) (l₁ l₂ : List String) (k : String),
      jsFromEntries roster k = none →
      outgoingFor roster (l₁ ++ k :: l₂) = outgoingFor roster (l₁ ++ l₂)) ∧
    (∀ (roster : List P) (send : List String) (p : P),
      p ∈ outgoingFor roster send → ∃ k ∈ send, jsFromEntries roster k = some p) ∧
    (∀ (roster : List P) (send : List String) (k : String) (p : P),
      k ∈ send → jsFromEntries roster k = some p → p ∈ outgoingFor roster send) := by
  refine ⟨fun roster l₁ l₂ k hk => ?_, fun roster send p hp => ?_,
    fun roster send k p hk hres => ?_⟩
  · simp [outgoingFor_eq_filterMap, List.filterMap_append, hk]
  · rw [outgoingFor_eq_filterMap] at hp
    simpa using List.mem_filterMap.mp hp
  · rw [outgoingFor_eq_filterMap]
    exact List.mem_filterMap.mpr ⟨k, hk, hres⟩

/-- Witness for C10: the unresolved key `"zz"` is dropped from a concrete
request, the resolved key `"a1"` contributes its player. -/
theorem outgoingFor_drops_unresolved_witness :
    outgoingFor wRoster (["a1"] ++ "zz" :: []) = outgoingFor wRoster (["a1"] ++ []) ∧
    (⟨"a1", ["C"], false, 10⟩ : P) ∈ outgoingFor wRoster ["a1"] :=
  ⟨outgoingFor_drops_unresolved.1 wRoster ["a1"] [] "zz" (by decide),
   outgoingFor_drops_unresolved.2.2 wRoster ["a1"] "a1" _ (by decide) (by decide)⟩

/-- Membership in the category-extraction loop: a category comes out iff
some descriptor of the list carries a numeric id and a name that survives
the games-played filter. -/
theorem mem_buildCategoryGo (l : List RawStat) (c : Category) :
    c ∈ buildCategoryListFromSettings.go l ↔
      ∃ s ∈ l, s.unwrap.stat_id = some c.id ∧ s.unwrap.name = c.name ∧
        s.unwrap.position_type = c.position_type ∧
        ¬ (gamesPlayedChars <:+: lowerNameOf s.unwrap.name) := by
  induction l with
  | nil => simp [buildCategoryListFromSettings.go]
  | cons s rest ih =>
    cases hid : s.unwrap.stat_id with
    | none =>
      rw [buildCategoryListFromSettings.go]
      simp only [hid]
      rw [ih]
      constructor
      · rintro ⟨t, ht, h⟩
        exact ⟨t, List.mem_cons_of_mem _ ht, h⟩
      · rintro ⟨t, ht, h⟩
        rcases List.mem_cons.mp ht with rfl | ht'
        · rw [hid] at h
          exact absurd h.1 (by simp)
        · exact ⟨t, ht', h⟩
    | some id =>
      rw [buildCategoryListFromSettings.go]
      simp only [hid]
      by_cases hinf : gamesPlayedChars <:+: lowerNameOf s.unwrap.name
      · rw [if_pos hinf, ih]
        constructor
        · rintro ⟨t, ht, h⟩
          exact ⟨t, List.mem_cons_of_mem _ ht, h⟩
        · rintro ⟨t, ht, h⟩
          rcases List.mem_cons.mp ht with rfl | ht'
          · rw [hid] at h
            rcases h with ⟨heq, hname, -, hni⟩
            exact absurd hinf (hname ▸ hni)
          · exact ⟨t, ht', h⟩
      · rw [if_neg hinf]
        constructor
        · intro hc
          rcases List.mem_cons.mp hc with rfl | hc'
          · exact ⟨s, List.mem_cons_self _ _, hid, rfl, rfl, hinf⟩
          · rcases ih.mp hc' with ⟨t, ht, h⟩
            exact ⟨t, List.mem_cons_of_mem _ ht, h⟩
        · rintro ⟨t, ht, h⟩
          rcases List.mem_cons.mp ht with rfl | ht'
          · rcases h with ⟨heq, hname, hpt, -⟩
            rw [hid] at heq
            obtain rfl : (⟨id, t.unwrap.name, t.unwrap.position_type⟩ : Category) = c := by
              cases c
              simp_all
            exact List.mem_cons_self _ _
          · exact List.mem_cons_of_mem _ (ih.mpr ⟨t, ht', h⟩)

/-- **C8.** A settings descriptor contributes a category iff its stat id is
numeric and its lowercased name does not contain `"games played"`; hence a
category named `"Games Played"` in any letter case never appears, and
missing or malformed settings yield the empty list rather than an error. -/
theorem buildCategoryList_exclusion :
    (∀ (settings : SettingsCats) (c : Category),
      c ∈ buildCategoryListFromSettings settings ↔
        ∃ s ∈ statsOf settings,
          s.unwrap.stat_id = some c.id ∧ s.unwrap.name = c.name ∧
          s.unwrap.position_type = c.position_type ∧
          ¬ (gamesPlayedChars <:+: lowerNameOf s.unwrap.name)) ∧
    (∀ (settings : SettingsCats) (c : Category),
      c ∈ buildCategoryListFromSettings settings →
        lowerNameOf c.name ≠ gamesPlayedChars) ∧
    buildCategoryListFromSettings none = [] ∧
    buildCategoryListFromSettings (some none) = [] := by
  refine ⟨fun settings c => mem_buildCategoryGo _ c, fun settings c hc heq => ?_, rfl, rfl⟩
  rcases (mem_buildCategoryGo _ c).mp hc with ⟨s, -, -, hname, -, hni⟩
  exact hni (by rw [hname, heq])

/-- Witness for C8: in a concrete settings object the goals category is kept
and the games-played category is excluded. -/
theorem buildCategoryList_exclusion_witness :
    (⟨1, some "Goals".toList, none⟩ : Category) ∈ buildCategoryListFromSettings wSettings ∧
    ¬ (⟨0, some "Games PLAYED".toList, none⟩ : Category) ∈ buildCategoryListFromSettings wSettings ∧
    lowerNameOf (some "Goals".toList) ≠ gamesPlayedChars :=
  ⟨(buildCategoryList_exclusion.1 wSettings _).mpr
      ⟨.bare ⟨some 1, some "Goals".toList, none⟩, by decide, by decide, by decide,
        by decide, by decide⟩,
   fun h => absurd ((buildCategoryList_exclusion.1 wSettings _).mp h)
      (by decide),
   buildCategoryList_exclusion.2.1 wSettings ⟨1, some "Goals".toList, none⟩
      ((buildCategoryList_exclusion.1 wSettings _).mpr
        ⟨.bare ⟨some 1, some "Goals".toList, none⟩, by decide, by decide, by decide,
          by decide, by decide⟩)⟩

/-- `lookup` through a key-preserving map of an association list. -/
theorem lookup_map_keyed {α β γ : Type} [DecidableEq α] (l : List (α × β))
    (f : α → β → γ) (k : α) :
    (l.map (fun kv => (kv.1, f kv.1 kv.2))).lookup k = (l.lookup k).map (f k) := by
  induction l with
  | nil => rfl
  | cons a rest ih =>
    cases hk : k == a.1 with
    | true =>
      have : k = a.1 := by simpa using hk
      simp [List.lookup, hk, this]
    | false => simp [List.lookup, hk, ih]

/-- **C5.** For every player of the pool, if the coerced games-played count
is positive then every raw-stat key maps to its raw value (non-numeric
coerced to `0`) divided by games played; if games played is `0` or missing,
the per-game map is empty.  All definitions are total, so no
division-by-zero exception can arise. -/
theorem computePerGame_per_game_rule :
    ∀ (players : List GPlayer) (p : GPlayer) (per : List (ℚ × ℚ)),
      (p, per) ∈ computePerGame players →
      ((0 < jsNumQ p.gp →
          ∀ k v, p.stats.lookup k = some v →
            per.lookup k = some (jsNumQ v / jsNumQ p.gp)) ∧
        (jsNumQ p.gp = 0 → per = []) ∧
        (p.gp = none → per = [])) := by
  intro players p per hmem
  obtain ⟨q, -, hq⟩ := List.mem_map.mp hmem
  have hp : p = q := (congrArg Prod.fst hq).symm
  have hper : per = perGameOne q := (congrArg Prod.snd hq).symm
  subst hp
  subst hper
  refine ⟨fun hpos k v hkv => ?_, fun hzero => ?_, fun hnone => ?_⟩
  · unfold perGameOne
    rw [if_neg (by exact ne_of_gt hpos)]
    rw [lookup_map_keyed p.stats (fun _ v => jsNumQ v / jsNumQ p.gp) k, hkv]
    rfl
  · unfold perGameOne
    rw [if_pos hzero]
  · unfold perGameOne
    rw [if_pos (by simp [jsNumQ, hnone])]

/-- Witness for C5: per-game division happens for the played player and the
missing-games player gets an empty per-game map. -/
theorem computePerGame_per_game_rule_witness :
    (perGameOne wG1).lookup 1 = some (jsNumQ (some 10) / jsNumQ (some 2)) ∧
    (perGameOne wG1).lookup 2 = some (jsNumQ none / jsNumQ (some 2)) ∧
    perGameOne wG2 = [] :=
  ⟨(computePerGame_per_game_rule [wG1, wG2] wG1 (perGameOne wG1)
      (List.mem_map_of_mem _ (List.mem_cons_self _ _))).1
      (by norm_num [wG1, jsNumQ]) 1 (some 10) (by decide),
   (computePerGame_per_game_rule [wG1, wG2] wG1 (perGameOne wG1)
      (List.mem_map_of_mem _ (List.mem_cons_self _ _))).1
      (by norm_num [wG1, jsNumQ]) 2 none (by decide),
   (computePerGame_per_game_rule [wG1, wG2] wG2 (perGameOne wG2)
      (List.mem_map_of_mem _ (by simp))).2.2 rfl⟩

/-! ## ValueScorer theorems -/

/-- Sum of a pointwise difference of maps. -/
theorem sum_map_sub_real {α : Type} (l : List α) (f g : α → ℝ) :
    (l.map (fun x => f x - g x)).sum = (l.map f).sum - (l.map g).sum := by
  induction l with
  | nil => simp
  | cons a t ih =>
    simp only [List.map_cons, List.sum_cons, ih]
    ring

/-- Sum of a pointwise quotient by a fixed divisor. -/
theorem sum_map_div_real {α : Type} (l : List α) (f : α → ℝ) (s : ℝ) :
    (l.map (fun x => f x / s)).sum = (l.map f).sum / s := by
  induction l with
  | nil => simp
  | cons a t ih =>
    simp only [List.map_cons, List.sum_cons, ih]
    ring

/-- Sum of a constant map. -/
theorem sum_map_const_real {α : Type} (l : List α) (c : ℝ) :
    (l.map (fun _ => c)).sum = l.length * c := by
  induction l with
  | nil => simp
  | cons a t ih =>
    simp only [List.map_cons, List.sum_cons, List.length_cons, ih]
    push_cast
    ring

/-- Expansion of a sum of squared deviations. -/
theorem sum_sq_dev_real {α : Type} (l : List α) (f : α → ℝ) (μ : ℝ) :
    (l.map (fun x => (f x - μ) * (f x - μ))).sum
      = (l.map (fun x => f x * f x)).sum - 2 * μ * (l.map f).sum
        + l.length * (μ * μ) := by
  induction l with
  | nil => simp
  | cons a t ih =>
    simp only [List.map_cons, List.sum_cons, List.length_cons, ih]
    push_cast
    ring

/-- On a non-empty pool, the code's `counts[c.id] || 1` is the pool size. -/
theorem nFor_of_ne_nil {pool : List VPlayer} (h : pool ≠ []) :
    nFor pool = (pool.length : ℝ) := by
  unfold nFor
  rw [if_neg (by simpa using h)]

/-- On a non-empty pool, the code's running mean is the population mean. -/
theorem meanFor_eq_specPopMean {pool : List VPlayer} (h : pool ≠ []) (id : ℚ) :
    meanFor pool id = specPopMean pool id := by
  unfold meanFor specPopMean sumsFor
  rw [nFor_of_ne_nil h]

/-- On a non-empty pool, the code's `E[X²] − E[X]²` (clamped at `0`) equals
the population variance. -/
theorem varianceFor_eq_specPopVariance {pool : List VPlayer} (h : pool ≠ [])
    (id : ℚ) : varianceFor pool id = specPopVariance pool id := by
  have hn : (pool.length : ℝ) ≠ 0 := by
    simpa using h
  have hkey : sums2For pool id / nFor pool - meanFor pool id * meanFor pool id
      = specPopVariance pool id := by
    unfold specPopVariance
    rw [sum_sq_dev_real pool (fun p => perVal p id) (specPopMean pool id)]
    rw [meanFor_eq_specPopMean h id]
    unfold specPopMean sums2For
    rw [nFor_of_ne_nil h]
    field_simp
    ring
  unfold varianceFor
  rw [hkey, max_eq_left]
  unfold specPopVariance
  apply div_nonneg
  · exact List.sum_nonneg (by
      intro x hx
      obtain ⟨p, -, rfl⟩ := List.mem_map.mp hx
      exact mul_self_nonneg _)
  · exact Nat.cast_nonneg _

/-- On a non-empty pool, the code's `Math.sqrt(variance) || 1e-9` equals the
floored population standard deviation. -/
theorem stdevFor_eq_specStdevFloored {pool : List VPlayer} (h : pool ≠ [])
    (id : ℚ) : stdevFor pool id = specStdevFloored pool id := by
  have hv : varianceFor pool id = specPopVariance pool id :=
    varianceFor_eq_specPopVariance h id
  have hnn : 0 ≤ specPopVariance pool id := by
    rw [← hv]
    unfold varianceFor
    exact le_max_right _ _
  unfold stdevFor specStdevFloored
  rw [hv]
  by_cases h0 : specPopVariance pool id = 0
  · rw [if_pos h0, if_pos (by rw [h0, Real.sqrt_zero])]
  · rw [if_neg h0, if_neg (Real.sqrt_ne_zero'.mpr (lt_of_le_of_ne hnn (Ne.symm h0)))]

/-- **C6.** On any non-empty pool, `valuePlayers` assigns each player the
sum over all categories of `(per_game − mean) / stdev`, rounded to 4
decimal places, where `mean` and `stdev` are the population mean and
population standard deviation of the per-game rates over the pool (missing
values defaulting to `0`), and a zero-variance category divides by the
`1e-9` floor instead. -/
theorem valuePlayers_is_rounded_zscore_sum (pool : List VPlayer)
    (cats : List Category) (h : pool ≠ []) :
    valuePlayers pool cats = pool.map (fun p =>
      { p with value := round4 ((cats.map (fun c =>
          (perVal p c.id - specPopMean pool c.id) / specStdevFloored pool c.id)).sum) }) := by
  unfold valuePlayers
  apply List.map_congr_left
  intro p hp
  have : zsumFor pool cats p = (cats.map (fun c =>
      (perVal p c.id - specPopMean pool c.id) / specStdevFloored pool c.id)).sum := by
    unfold zsumFor
    apply congrArg
    apply List.map_congr_left
    intro c hc
    rw [meanFor_eq_specPopMean h, stdevFor_eq_specStdevFloored h]
  rw [this]

/-- Witness for C6: on the concrete two-player pool the scorer writes the
values −1 and 1 (z-scores of a unit-variance pool, rounding fixed). -/
theorem valuePlayers_is_rounded_zscore_sum_witness :
    valuePlayers wVPool [wCat] = [⟨[(1, 0)], -1⟩, ⟨[(1, 2)], 1⟩] := by
  have h := valuePlayers_is_rounded_zscore_sum wVPool [wCat] (by simp [wVPool])
  rw [h]
  have hper0 : perVal ⟨[(1, 0)], 0⟩ 1 = 0 := by
    simp [perVal, List.lookup]
  have hper2 : perVal ⟨[(1, 2)], 0⟩ 1 = 2 := by
    simp [perVal, List.lookup]
  have hmean : specPopMean wVPool 1 = 1 := by
    unfold specPopMean wVPool
    rw [List.map_cons, List.map_cons, List.map_nil]
    rw [hper0, hper2]
    norm_num
  have hvar : specPopVariance wVPool 1 = 1 := by
    unfold specPopVariance wVPool
    rw [List.map_cons, List.map_cons, List.map_nil]
    rw [hper0, hper2]
    rw [show specPopMean [⟨[(1, 0)], 0⟩, ⟨[(1, 2)], 0⟩] 1 = 1 from hmean]
    norm_num
  have hstdev : specStdevFloored wVPool 1 = 1 := by
    unfold specStdevFloored
    rw [hvar]
    rw [if_neg one_ne_zero, Real.sqrt_one]
  have hr1 : round4 (-1 : ℝ) = -1 := by
    unfold round4
    rw [show ((-1 : ℝ) * 10000) = ((-10000 : ℤ) : ℝ) by norm_num]
    rw [round_intCast]
    norm_num
  have hr2 : round4 (1 : ℝ) = 1 := by
    unfold round4
    rw [show ((1 : ℝ) * 10000) = ((10000 : ℤ) : ℝ) by norm_num]
    rw [round_intCast]
    norm_num
  show [({ per := [(1, 0)], value := round4 ((List.map _ [wCat]).sum) } : VPlayer),
        { per := [(1, 2)], value := round4 ((List.map _ [wCat]).sum) }] = _
  rw [List.map_cons, List.map_nil]
  rw [List.map_cons, List.map_nil]
  show [({ per := [(1, 0)], value := round4 ([(perVal ⟨[(1, 0)], 0⟩ wCat.id -
          specPopMean wVPool wCat.id) / specStdevFloored wVPool wCat.id].sum) } : VPlayer),
        { per := [(1, 2)], value := round4 ([(perVal ⟨[(1, 2)], 0⟩ wCat.id -
          specPopMean wVPool wCat.id) / specStdevFloored wVPool wCat.id].sum) }] = _
  have hid : wCat.id = 1 := rfl
  rw [hid, hper0, hper2, hmean, hstdev]
  norm_num [hr1, hr2]

/-- **C9.** For a non-empty pool scored against a single category, the sum
over the pool of the pre-rounding composite terms `(per_game − mean) /
stdev` (the code's `val` accumulator) is exactly `0`: the terms are
mean-centered. -/
theorem zsum_single_category_mean_centered (pool : List VPlayer) (c : Category)
    (h : pool ≠ []) :
    (pool.map (fun p => zsumFor pool [c] p)).sum = 0 := by
  have hn : (pool.length : ℝ) ≠ 0 := by simpa using h
  have hz : ∀ p ∈ pool, zsumFor pool [c] p
      = (perVal p c.id - meanFor pool c.id) / stdevFor pool c.id := by
    intro p _
    simp [zsumFor]
  rw [List.map_congr_left hz]
  rw [sum_map_div_real pool (fun p => perVal p c.id - meanFor pool c.id)
      (stdevFor pool c.id)]
  rw [sum_map_sub_real pool (fun p => perVal p c.id) (fun _ => meanFor pool c.id)]
  rw [sum_map_const_real]
  have hnum : (pool.map (fun p => perVal p c.id)).sum
      - (pool.length : ℝ) * meanFor pool c.id = 0 := by
    unfold meanFor sumsFor
    rw [nFor_of_ne_nil h, ← mul_div_assoc, mul_div_cancel_left₀ _ hn]
    exact sub_self _
  rw [hnum, zero_div]

/-- Witness for C9: the composite terms of the concrete two-player pool sum
to zero. -/
theorem zsum_single_category_mean_centered_witness :
    (wVPool.map (fun p => zsumFor wVPool [wCat] p)).sum = 0 :=
  zsum_single_category_mean_centered wVPool wCat (by simp [wVPool])

/-- **C7.** Running the scorer a second time on the already-scored pool with
the same category list reproduces exactly the same pool (hence the same
`value` field on every player): the computation reads only per-game stats
and the category list, never the previously written values. -/
theorem valuePlayers_idempotent (pool : List VPlayer) (cats : List Category) :
    valuePlayers (valuePlayers pool cats) cats = valuePlayers pool cats := by
  have hmap1 : ∀ id : ℚ, (valuePlayers pool cats).map (fun p => perVal p id)
      = pool.map (fun p => perVal p id) := by
    intro id
    unfold valuePlayers
    rw [List.map_map]
    rfl
  have hmap2 : ∀ id : ℚ,
      (valuePlayers pool cats).map (fun p => perVal p id * perVal p id)
      = pool.map (fun p => perVal p id * perVal p id) := by
    intro id
    unfold valuePlayers
    rw [List.map_map]
    rfl
  have hn : nFor (valuePlayers pool cats) = nFor pool := by
    unfold nFor valuePlayers
    rw [List.length_map]
  have hmean : ∀ id : ℚ, meanFor (valuePlayers pool cats) id = meanFor pool id := by
    intro id
    unfold meanFor sumsFor
    rw [hmap1, hn]
  have hvar : ∀ id : ℚ, varianceFor (valuePlayers pool cats) id
      = varianceFor pool id := by
    intro id
    unfold varianceFor sums2For
    rw [hmap2, hn, hmean]
  have hstdev : ∀ id : ℚ, stdevFor (valuePlayers pool cats) id
      = stdevFor pool id := by
    intro id
    unfold stdevFor
    rw [hvar]
  have hzAll : ∀ q : VPlayer, zsumFor (valuePlayers pool cats) cats q
      = zsumFor pool cats q := by
    intro q
    unfold zsumFor
    apply congrArg
    apply List.map_congr_left
    intro c _
    rw [hmean c.id, hstdev c.id]
  show (valuePlayers pool cats).map
      (fun q => { q with value := round4 (zsumFor (valuePlayers pool cats) cats q) })
      = valuePlayers pool cats
  rw [List.map_congr_left
      (fun q (_ : q ∈ valuePlayers pool cats) => by rw [hzAll q])]
  show (pool.map (fun p => { p with value := round4 (zsumFor pool cats p) })).map
      (fun q => { q with value := round4 (zsumFor pool cats q) })
      = valuePlayers pool cats
  rw [List.map_map]
  exact List.map_congr_left (fun p _ => rfl)

/-! ## RosterSlotAssigner theorems -/

/-- A successful slot scan returns one of the six labels of the
requirements object, an open slot, and an eligible position. -/
theorem scanSlots_sound (p : P) (need : SlotReq) (pos : String)
    (h : scanSlots p (entriesOf need) = some pos) :
    eligibleFor p pos ∧ 0 < getSlot need pos ∧
      (pos = "C" ∨ pos = "LW" ∨ pos = "RW" ∨ pos = "D" ∨ pos = "Util" ∨ pos = "G") := by
  simp only [entriesOf, scanSlots] at h
  split_ifs at h with h1 h2 h3 h4 h5 h6
  · injection h with h
    subst h
    simp_all [getSlot]
  · injection h with h
    subst h
    simp_all [getSlot]
  · injection h with h
    subst h
    simp_all [getSlot]
  · injection h with h
    subst h
    simp_all [getSlot]
  · injection h with h
    subst h
    simp_all [getSlot]
  · injection h with h
    subst h
    simp_all [getSlot]

/-- Decrementing a named slot changes exactly that label's count. -/
theorem decSlot_getSlot (r : SlotReq) (pos lab : String)
    (hpos : pos = "C" ∨ pos = "LW" ∨ pos = "RW" ∨ pos = "D" ∨ pos = "Util" ∨ pos = "G") :
    getSlot (decSlot r pos) lab = if lab = pos then getSlot r pos - 1 else getSlot r lab := by
  unfold decSlot getSlot
  rcases hpos with rfl | rfl | rfl | rfl | rfl | rfl <;>
    · simp only [String.reduceEq, reduceIte]
      split_ifs <;> simp_all

/-- Invariant of the shared greedy loop: the placed and unplaced players
together are a permutation of the initial state plus the processed players,
and per label, placements plus remaining count is conserved. -/
theorem greedyAssign_loop_invariant (l : List P) :
    ∀ (chosen : List (String × P)) (left : List P) (need : SlotReq),
      (((l.foldl stepPlayer (chosen, left, need)).1.map Prod.snd
          ++ (l.foldl stepPlayer (chosen, left, need)).2.1).Perm
        ((chosen.map Prod.snd ++ left) ++ l)) ∧
      (∀ lab, ((l.foldl stepPlayer (chosen, left, need)).1.filter
            (fun e => e.1 = lab)).length
          + getSlot (l.foldl stepPlayer (chosen, left, need)).2.2 lab
        = (chosen.filter (fun e => e.1 = lab)).length + getSlot need lab) := by
  induction l with
  | nil =>
    intro chosen left need
    exact ⟨by simp, fun lab => rfl⟩
  | cons p rest ih =>
    intro chosen left need
    rw [List.foldl_cons]
    cases hscan : scanSlots p (entriesOf need) with
    | some pos =>
      have hstep : stepPlayer (chosen, left, need) p
          = (chosen ++ [(pos, p)], left, decSlot need pos) := by
        unfold stepPlayer
        rw [hscan]
      rw [hstep]
      obtain ⟨-, hopen, hlabs⟩ := scanSlots_sound p need pos hscan
      refine ⟨((ih _ _ _).1).trans ?_, fun lab => ?_⟩
      · simp only [List.map_append, List.map_cons, List.map_nil,
          List.append_assoc, List.singleton_append, List.cons_append,
          List.nil_append]
        exact List.Perm.append_left _ List.perm_middle.symm
      · rw [(ih _ _ _).2 lab, List.filter_append,
          decSlot_getSlot need pos lab hlabs]
        by_cases hl : lab = pos
        · subst hl
          rw [if_pos rfl]
          have hone : ([(lab, p)].filter (fun e => e.1 = lab)).length = 1 := by
            simp
          rw [List.length_append, hone]
          omega
        · rw [if_neg hl]
          have hzero : ([(pos, p)].filter (fun e => e.1 = lab)).length = 0 := by
            simp [Ne.symm hl]
          rw [List.length_append, hzero]
          omega
    | none =>
      have hstep : stepPlayer (chosen, left, need) p = (chosen, left ++ [p], need) := by
        unfold stepPlayer
        rw [hscan]
      rw [hstep]
      refine ⟨((ih _ _ _).1).trans ?_, fun lab => (ih _ _ _).2 lab⟩
      simp only [List.append_assoc, List.singleton_append, List.cons_append,
        List.nil_append]
      exact List.Perm.refl _

/-- **C3.** For every input pool and slot-requirements mapping, the greedy
assignment classifies every input player exactly once — starters and bench
together are a permutation of the input pool — and the number of starters
placed under any slot label never exceeds its configured count. -/
theorem pickStarters_partition_and_caps (req : SlotReq) (players : List P) :
    (((pickStarters req players).1 ++ (pickStarters req players).2).Perm players) ∧
    (∀ lab, ((greedyAssign req (sortByValueDesc players)).1.filter
        (fun e => e.1 = lab)).length ≤ getSlot req lab) ∧
    (players.Nodup →
      ((pickStarters req players).1 ++ (pickStarters req players).2).Nodup ∧
      (pickStarters req players).1.Disjoint (pickStarters req players).2) := by
  obtain ⟨hperm, hcount⟩ :=
    greedyAssign_loop_invariant (sortByValueDesc players) [] [] req
  have hP : ((pickStarters req players).1 ++ (pickStarters req players).2).Perm
      players := by
    refine hperm.trans ?_
    simpa [sortByValueDesc] using
      List.perm_insertionSort (fun a b : P => b.value ≤ a.value) players
  refine ⟨hP, fun lab => ?_, fun hnd => ?_⟩
  · have h := hcount lab
    unfold greedyAssign
    simp only [List.filter_nil, List.length_nil, Nat.zero_add] at h
    omega
  · have hnodup : ((pickStarters req players).1 ++ (pickStarters req players).2).Nodup :=
      hP.nodup_iff.mpr hnd
    exact ⟨hnodup, (List.nodup_append.mp hnodup).2.2⟩

/-- `scanSlots` returns exactly the label of the first open eligible entry,
and `none` exactly when no entry is open and eligible. -/
theorem scanSlots_first_characterisation (p : P) :
    ∀ l : List (String × Nat),
      (∀ pos, scanSlots p l = some pos ↔
        ∃ l₁ e l₂, l = l₁ ++ e :: l₂ ∧ openElig p e ∧ e.1 = pos ∧
          ∀ e' ∈ l₁, ¬ openElig p e') ∧
      (scanSlots p l = none ↔ ∀ e ∈ l, ¬ openElig p e) := by
  intro l
  induction l with
  | nil =>
    constructor
    · intro pos
      constructor
      · intro h
        simp [scanSlots] at h
      · rintro ⟨l₁, e, l₂, heq, -, -, -⟩
        exact absurd heq (by cases l₁ <;> simp)
    · simp [scanSlots]
  | cons a rest ih =>
    obtain ⟨iha, ihb⟩ := ih
    obtain ⟨lab, cnt⟩ := a
    by_cases ha : openElig p (lab, cnt)
    · have hs : scanSlots p ((lab, cnt) :: rest) = some lab := if_pos ha
      constructor
      · intro pos
        rw [hs]
        constructor
        · intro h
          injection h with h
          exact ⟨[], (lab, cnt), rest, rfl, ha, h, by simp⟩
        · rintro ⟨l₁, e, l₂, heq, he, hpos, hnone⟩
          cases l₁ with
          | nil =>
            rw [List.nil_append] at heq
            injection heq with h1 h2
            rw [← hpos, ← h1]
          | cons b l₁' =>
            rw [List.cons_append] at heq
            injection heq with h1 h2
            exact absurd ha (h1 ▸ hnone b (List.mem_cons_self _ _))
      · rw [hs]
        exact iff_of_false (by simp) (fun h => (h (lab, cnt) (List.mem_cons_self _ _)) ha)
    · have hs : scanSlots p ((lab, cnt) :: rest) = scanSlots p rest := if_neg ha
      constructor
      · intro pos
        rw [hs, iha pos]
        constructor
        · rintro ⟨l₁, e, l₂, rfl, he, hpos, hn⟩
          refine ⟨(lab, cnt) :: l₁, e, l₂, rfl, he, hpos, ?_⟩
          intro e' he'
          rcases List.mem_cons.mp he' with rfl | h'
          · exact ha
          · exact hn e' h'
        · rintro ⟨l₁, e, l₂, heq, he, hpos, hn⟩
          cases l₁ with
          | nil =>
            rw [List.nil_append] at heq
            injection heq with h1 h2
            exact absurd (h1 ▸ he) ha
          | cons b l₁' =>
            rw [List.cons_append] at heq
            injection heq with h1 h2
            exact ⟨l₁', e, l₂, h2, he, hpos,
              fun e' h' => hn e' (List.mem_cons_of_mem _ h')⟩
      · rw [hs, ihb]
        constructor
        · intro h e he
          rcases List.mem_cons.mp he with rfl | h'
          · exact ha
          · exact h e h'
        · intro h e he
          exact h e (List.mem_cons_of_mem _ he)

/-- **C4.** Each player processed by the greedy assigner goes to the label
of the first entry of the slot mapping (in its fixed order) that is open
(count > 0) and eligible; on placement exactly that slot's count is
decremented and every other label is untouched (no further slot is
scanned); when no entry is open and eligible, the player is benched and the
counts are untouched.  Eligibility is: for `"Util"`, not a goalie; for
`"G"`, a goalie; for any other label, membership in the player's
positions. -/
theorem stepPlayer_first_eligible_slot :
    ∀ (chosen : List (String × P)) (left : List P) (need : SlotReq) (p : P),
      (∀ pos, scanSlots p (entriesOf need) = some pos ↔
        ∃ l₁ e l₂, entriesOf need = l₁ ++ e :: l₂ ∧ openElig p e ∧ e.1 = pos ∧
          ∀ e' ∈ l₁, ¬ openElig p e') ∧
      (∀ pos, scanSlots p (entriesOf need) = some pos →
        stepPlayer (chosen, left, need) p
          = (chosen ++ [(pos, p)], left, decSlot need pos) ∧
        getSlot (decSlot need pos) pos = getSlot need pos - 1 ∧
        ∀ lab, lab ≠ pos → getSlot (decSlot need pos) lab = getSlot need lab) ∧
      (scanSlots p (entriesOf need) = none →
        stepPlayer (chosen, left, need) p = (chosen, left ++ [p], need) ∧
        ∀ e ∈ entriesOf need, ¬ openElig p e) ∧
      (∀ e : String × Nat, openElig p e ↔ eligibleFor p e.1 ∧ 0 < e.2) ∧
      (eligibleFor p "Util" = !p.isGoalie) ∧
      (eligibleFor p "G" = p.isGoalie) ∧
      (∀ lab, lab ≠ "Util" → lab ≠ "G" → eligibleFor p lab = p.pos.contains lab) := by
  intro chosen left need p
  refine ⟨(scanSlots_first_characterisation p (entriesOf need)).1,
    fun pos h => ?_, fun h => ?_, fun e => Iff.rfl, ?_, ?_, fun lab h1 h2 => ?_⟩
  · obtain ⟨-, -, hlabs⟩ := scanSlots_sound p need pos h
    refine ⟨by unfold stepPlayer; rw [h], ?_, fun lab hlab => ?_⟩
    · rw [decSlot_getSlot need pos pos hlabs, if_pos rfl]
    · rw [decSlot_getSlot need pos lab hlabs, if_neg hlab]
  · exact ⟨by unfold stepPlayer; rw [h],
      (scanSlots_first_characterisation p (entriesOf need)).2.mp h⟩
  · simp [eligibleFor]
  · simp [eligibleFor]
  · unfold eligibleFor
    rw [if_neg h1, if_neg h2]

/-- Witness for C4: the concrete skater is placed into the open `"C"` slot,
which is decremented to zero while `"Util"` stays untouched. -/
theorem stepPlayer_first_eligible_slot_witness :
    stepPlayer ([], [], wReq) wP = ([("C", wP)], [], decSlot wReq "C") ∧
    getSlot (decSlot wReq "C") "C" = getSlot wReq "C" - 1 ∧
    getSlot (decSlot wReq "C") "Util" = getSlot wReq "Util" :=
  ⟨((stepPlayer_first_eligible_slot [] [] wReq wP).2.1 "C" (by decide)).1,
   ((stepPlayer_first_eligible_slot [] [] wReq wP).2.1 "C" (by decide)).2.1,
   ((stepPlayer_first_eligible_slot [] [] wReq wP).2.1 "C" (by decide)).2.2 "Util" (by decide)⟩

/-! ## TradeImpactCalculator theorems -/

/-- The code's `reduce((acc, p) => acc + (Number(p.value) || 0), 0)` is the
sum of the values. -/
theorem foldl_add_value (l : List P) : ∀ acc : ℚ,
    l.foldl (fun a p => a + p.value) acc = acc + (l.map P.value).sum := by
  induction l with
  | nil =>
    intro acc
    simp
  | cons p rest ih =>
    intro acc
    rw [List.foldl_cons, ih]
    simp [add_assoc]

/-- **C1 (amended).** For every evaluate-flow input — a roster split by
`pickStarters`, outgoing players resolved and removed as the call sites do —
the impact returned by `tradeImpactForTeam` equals `strength − baseline`,
where `strength` sums `value` over the post-trade chosen lineup including
any free-agent backfill, and `baseline` sums `value` over the pre-trade
starting lineup **with the outgoing players already removed** (the
`starters` argument), not over the original pre-trade starting lineup. -/
theorem tradeImpactForTeam_strength_minus_removed_baseline :
    ∀ (roster : List P) (sendKeys : List String) (incoming freeAgents : List P)
      (req : SlotReq),
      tradeImpactForTeam
          (removeOutgoing (pickStarters req roster).1 (outgoingFor roster sendKeys))
          (removeOutgoing (pickStarters req roster).2 (outgoingFor roster sendKeys))
          incoming freeAgents req
        = (((tradeChosen
              (removeOutgoing (pickStarters req roster).1 (outgoingFor roster sendKeys))
              (removeOutgoing (pickStarters req roster).2 (outgoingFor roster sendKeys))
              incoming freeAgents req).map Prod.snd).map P.value).sum
          - ((removeOutgoing (pickStarters req roster).1 (outgoingFor roster sendKeys)).map
              P.value).sum := by
  intro roster sendKeys incoming freeAgents req
  simp only [tradeImpactForTeam]
  rw [foldl_add_value, foldl_add_value]
  simp

/-- **C1 (counterexample).** In a one-centre-slot league where team A
rosters `a1` (value 10, the starter) and `a2` (value 5, benched), sending
the starter `a1` and receiving `b1` (value 7) makes `tradeImpactForTeam`
return `7` (strength 7 minus the post-removal baseline 0), whereas
`strength − baseline` with the claim's baseline — the original pre-trade
starting lineup `[a1]` of value 10 — is `−3`.  The claim as stated is
false on this input. -/
theorem tradeImpact_not_original_baseline_counterexample :
    tradeImpactForTeam
        (removeOutgoing (pickStarters cexReq cexRoster).1 (outgoingFor cexRoster ["a1"]))
        (removeOutgoing (pickStarters cexReq cexRoster).2 (outgoingFor cexRoster ["a1"]))
        [cexB1] [] cexReq
      ≠ (((tradeChosen
            (removeOutgoing (pickStarters cexReq cexRoster).1 (outgoingFor cexRoster ["a1"]))
            (removeOutgoing (pickStarters cexReq cexRoster).2 (outgoingFor cexRoster ["a1"]))
            [cexB1] [] cexReq).map Prod.snd).map P.value).sum
        - ((pickStarters cexReq cexRoster).1.map P.value).sum := by
  have h1 : removeOutgoing (pickStarters cexReq cexRoster).1
      (outgoingFor cexRoster ["a1"]) = [] := by decide
  have h2 : removeOutgoing (pickStarters cexReq cexRoster).2
      (outgoingFor cexRoster ["a1"]) = [cexA2] := by decide
  have h4 : (pickStarters cexReq cexRoster).1 = [cexA1] := by decide
  have h3 : tradeChosen [] [cexA2] [cexB1] [] cexReq = [("C", cexB1)] := by decide
  rw [h1, h2, h3, h4]
  have h5 : tradeImpactForTeam [] [cexA2] [cexB1] [] cexReq = 7 := by
    simp only [tradeImpactForTeam]
    rw [h3]
    simp [cexB1]
  rw [h5]
  simp only [List.map_cons, List.map_nil, List.sum_cons, List.sum_nil]
  show (7 : ℚ) ≠ (cexB1.value + 0) - (cexA1.value + 0)
  norm_num [cexB1, cexA1]

/-- Witness for C3: on a concrete duplicate-free one-player pool the split
is duplicate-free and disjoint. -/
theorem pickStarters_partition_and_caps_witness :
    ((pickStarters wReq [wP]).1 ++ (pickStarters wReq [wP]).2).Nodup ∧
    (pickStarters wReq [wP]).1.Disjoint (pickStarters wReq [wP]).2 :=
  (pickStarters_partition_and_caps wReq [wP]).2.2 (by decide)
